import Mathlib

/-!
Verification development for the ClauseWise text-analysis core
(`src/utils/clause_analyzer.py`, `src/utils/doc_classifier.py`,
`src/utils/ner_extractor.py`).

The Python code is shallowly embedded:

* Python `str` is modelled by `String` (a list of unicode code points,
  matching Python's character-indexed strings); whitespace is the ASCII
  whitespace set recognised by `str.strip()` / `str.split()` / regex `\s`.
* The IBM Granite text-completion client (`granite_client.get_granite_client`)
  is a black-box collaborator: each call to `generate` is modelled by a value of
  `Except String String` (either the returned string or the message of the
  raised exception), passed in as an argument.
* The handful of complex `re` patterns whose results only flow into record
  construction (the numbered-clause / section-header patterns of
  `clause_analyzer.py` and the party/date/money/contact patterns of
  `ner_extractor.py`) are modelled by oracle arguments listing the
  `re.finditer` match data; every claim about those functions is proved for
  all possible match lists.  The classifier's scoring patterns, whose match
  counts the claims quantify over, are embedded by a small executable engine
  (`matchAtoms`/`scanCount`) that is faithful for the shapes occurring in the
  catalog (literals, a `[-\s]` class, `\s+` runs).
-/

/-! ## Python string primitives -/

/-- ASCII whitespace, as recognised by Python's `str.strip()`, `str.split()`
and the regex class `\s` (restricted to ASCII, which is all the repository's
inputs use). -/
def isWsChar (c : Char) : Bool :=
  c == ' ' || c == '\t' || c == '\n' || c == '\r' || c == '\x0b' || c == '\x0c'

/-- Python `str.lower()` (ASCII case mapping). -/
def pyLower (s : String) : String :=
  String.mk (s.toList.map Char.toLower)

/-- Python `str.strip()`: remove leading and trailing whitespace. -/
def pyStripL (cs : List Char) : List Char :=
  ((cs.dropWhile isWsChar).reverse.dropWhile isWsChar).reverse

/-- Python `str.strip()` on `String`. -/
def pyStrip (s : String) : String :=
  String.mk (pyStripL s.toList)

/-- Tokensizer for Python `str.split()` with no separator: maximal runs of
non-whitespace characters.  The first argument is fuel, instantiated with the
length of the list so the kernel can evaluate the function. -/
def pySplitTok : Nat → List Char → List (List Char)
  | _, [] => []
  | 0, _ :: _ => []
  | fuel + 1, c :: rest =>
    if isWsChar c then pySplitTok fuel rest
    else
      ((c :: rest).takeWhile (fun d => !isWsChar d)) ::
        pySplitTok fuel ((c :: rest).dropWhile (fun d => !isWsChar d))

/-- Python `str.split()` with no separator. -/
def pySplitWs (s : String) : List String :=
  (pySplitTok s.toList.length s.toList).map String.mk

/-- Test that the first list starts the second (used for the substring test below). -/
def startsList : List Char → List Char → Bool
  | [], _ => true
  | _ :: _, [] => false
  | a :: as, b :: bs => a == b && startsList as bs

/-- Substring test on character lists: Python's `needle in hay`. -/
def hasSub : List Char → List Char → Bool
  | n, [] => n.isEmpty
  | n, c :: rest => startsList n (c :: rest) || hasSub n rest

/-- Python's `needle in hay` on `String`. -/
def hasSubStr (needle hay : String) : Bool :=
  hasSub needle.toList hay.toList

/-- Python `str.replace(' ', '')`: drop space characters (only U+0020). -/
def stripSpaces (s : String) : String :=
  String.mk (s.toList.filter (fun c => !(c == ' ')))

/-- Python `str.title()` (ASCII): uppercase each letter that does not follow a
letter, lowercase the other letters. -/
def pyTitleAux : Bool → List Char → List Char
  | _, [] => []
  | prevAlpha, c :: rest =>
    (if c.isAlpha && !prevAlpha then c.toUpper else c.toLower) ::
      pyTitleAux c.isAlpha rest

/-- Python `str.title()` on `String`. -/
def pyTitle (s : String) : String :=
  String.mk (pyTitleAux false s.toList)

/-- Python slice `s[:n]` for a nonnegative bound. -/
def pyTakeStr (s : String) (n : Nat) : String :=
  String.mk (s.toList.take n)

/-- Python slice `s[a:b]` for nonnegative bounds (out-of-range bounds clamp,
as in Python). -/
def pySliceRange (s : String) (a b : Nat) : String :=
  String.mk ((s.toList.drop a).take (b - a))

/-- Python `round(x, 2)` on exact rationals.  (CPython rounds binary floats
half-to-even; every value a claim depends on is an exact integer, where the
two agree.) -/
def round2 (q : ℚ) : ℚ :=
  ((round (q * 100) : ℤ) : ℚ) / 100

/-! ### Small String lemmas for the embedding -/

theorem String.toList_append' (s t : String) :
    (s ++ t).toList = s.toList ++ t.toList := by
  cases s; cases t; rfl

theorem String.length_mk' (cs : List Char) : (String.mk cs).length = cs.length := rfl

theorem String.length_append' (s t : String) :
    (s ++ t).length = s.length + t.length := by
  cases s; cases t
  show List.length (_ ++ _) = _
  simp [String.length]

theorem String.length_eq_zero' (s : String) : s.length = 0 ↔ s = "" := by
  cases s with
  | mk d => cases d <;> simp [String.length, String.ext_iff]

theorem pyLower_append (s t : String) :
    pyLower (s ++ t) = pyLower s ++ pyLower t := by
  cases s; cases t; simp [pyLower, String.toList_append']; rfl

/-! ## Clause analyzer (`src/utils/clause_analyzer.py`) -/

/-- Catalog of clause types (`ClauseAnalyzer.clause_types`). -/
def clause_types : List String :=
  ["definitions", "scope", "term", "termination", "payment",
   "confidentiality", "intellectual property", "warranties",
   "liability", "indemnification", "force majeure", "dispute resolution",
   "governing law", "notices", "amendments", "severability"]

/-- Fallback keyword group for `Definitions` (`_identify_clause_type`). -/
def definitionsWords : List String := ["define", "definition", "means"]

/-- Fallback keyword group for `Termination`. -/
def terminationWords : List String := ["terminate", "termination", "cancel"]

/-- Fallback keyword group for `Payment`. -/
def paymentWords : List String := ["pay", "payment", "fee", "compensation"]

/-- Fallback keyword group for `Confidentiality`. -/
def confidentialityWords : List String := ["confidential", "secret", "proprietary"]

/-- Fallback keyword group for `Liability`. -/
def liabilityWords : List String := ["liable", "liability", "responsible"]

/-- Fallback keyword group for `Warranties`. -/
def warrantiesWords : List String := ["warrant", "guarantee", "represent"]

/-- First catalog entry whose space-stripped form is a substring of the
space-stripped lowercased text (the `for clause_type in self.clause_types`
loop of `_identify_clause_type`). -/
def catalogHit (text_lower : String) : Option String :=
  clause_types.find? (fun ct => hasSubStr (stripSpaces ct) (stripSpaces text_lower))

/-- Embedding of `ClauseAnalyzer._identify_clause_type`. -/
def identify_clause_type (text : String) : String :=
  let text_lower := pyLower text
  match catalogHit text_lower with
  | some ct => pyTitle ct
  | none =>
    if definitionsWords.any (fun w => hasSubStr w text_lower) then "Definitions"
    else if terminationWords.any (fun w => hasSubStr w text_lower) then "Termination"
    else if paymentWords.any (fun w => hasSubStr w text_lower) then "Payment"
    else if confidentialityWords.any (fun w => hasSubStr w text_lower) then "Confidentiality"
    else if liabilityWords.any (fun w => hasSubStr w text_lower) then "Liability"
    else if warrantiesWords.any (fun w => hasSubStr w text_lower) then "Warranties"
    else "General"

/-- A clause record as built by the three extraction strategies.  Strategies 1
and 3 set the `number` key, strategy 2 the `title` key; the optional fields
model the loosely-keyed Python dicts. -/
structure Clause where
  number : Option String := none
  title : Option String := none
  content : String
  type : String
  word_count : Nat
deriving DecidableEq, Repr

/-- Embedding of `_extract_numbered_clauses`.  The argument lists the
`(group(1), group(2))` pairs produced by `re.finditer` for the numbered-clause
pattern; the function performs the per-match processing of the source. -/
def numbered_clauses_of (ms : List (String × String)) : List Clause :=
  ms.filterMap (fun m =>
    let number := pyStrip m.1
    let content := pyStrip m.2
    if content.length > 20 then
      some { number := some number, content := content,
             type := identify_clause_type content,
             word_count := (pySplitWs content).length }
    else none)

/-- One `re.finditer` match of the section-header pattern of
`_extract_section_clauses`: the title group, and the span of the whole match. -/
structure SectionMatch where
  titleGroup : String
  mstart : Nat
  mend : Nat
deriving DecidableEq, Repr

/-- Per-match processing of `_extract_section_clauses`: the content of a
section runs from the end of its header match to the start of the next header
match (or the end of the text). -/
def section_clauses_of (text : String) : List SectionMatch → List Clause
  | [] => []
  | m :: rest =>
    let title := pyStrip m.titleGroup
    let endPos := ((rest.head?).map SectionMatch.mstart).getD text.length
    let content := pyStrip (pySliceRange text m.mend endPos)
    (if content.length > 50 then
      [{ title := some title, content := content,
         type := identify_clause_type (title ++ " " ++ content),
         word_count := (pySplitWs content).length }]
    else []) ++ section_clauses_of text rest

/-- Index of the last newline character in a list, if any. -/
def lastNlIdx : List Char → Option Nat
  | [] => none
  | c :: rest =>
    match lastNlIdx rest with
    | some i => some (i + 1)
    | none => if c == '\n' then some 0 else none

/-- Completion of the paragraph-split pattern after a trigger character
(`\s*\n` after the leading `\n` or `\.`): greedily matching `\s*` and then
requiring `\n` consumes characters up to and including the last newline lying
in the whitespace run.  Returns the number of characters consumed after the
trigger, or `none` when the alternative cannot match here. -/
def splitContLen (rest : List Char) : Option Nat :=
  (lastNlIdx (rest.takeWhile isWsChar)).map (· + 1)

/-- Scanner for `re.split(r'\n\s*\n|\.\s*\n', text)` used by
`_extract_paragraph_clauses`.  First argument is fuel (the list length). -/
def paraSplitAux : Nat → List Char → List Char → List (List Char)
  | _, acc, [] => [acc.reverse]
  | 0, acc, _ :: _ => [acc.reverse]
  | fuel + 1, acc, c :: rest =>
    if c == '\n' || c == '.' then
      match splitContLen rest with
      | some k => acc.reverse :: paraSplitAux fuel [] (rest.drop k)
      | none => paraSplitAux fuel (c :: acc) rest
    else paraSplitAux fuel (c :: acc) rest

/-- Embedding of `re.split(r'\n\s*\n|\.\s*\n', text)`. -/
def paraSplit (s : String) : List String :=
  (paraSplitAux s.toList.length [] s.toList).map String.mk

/-- Embedding of `_extract_paragraph_clauses` (strategy 3): paragraphs longer
than 100 characters become clauses with synthetic `P<i+1>` locators (the index
counts all split pieces, as in the source's `enumerate`), and the output is
capped at 20. -/
def paragraph_clauses (text : String) : List Clause :=
  (((paraSplit text).enum).filterMap (fun ip =>
    let para := pyStrip ip.2
    if para.length > 100 then
      some { number := some ("P" ++ toString (ip.1 + 1)), content := para,
             type := identify_clause_type para,
             word_count := (pySplitWs para).length }
    else none)).take 20

/-- Embedding of `ClauseAnalyzer.extract_clauses`.  The two regex-driven
strategies receive their `re.finditer` match data through the oracle
arguments `nm` (numbered-clause pattern) and `sm` (section-header pattern);
all claims about this function are proved for every possible oracle. -/
def extract_clauses (nm : String → List (String × String))
    (sm : String → List SectionMatch) (text : String) : List Clause :=
  if numbered_clauses_of (nm text) ≠ [] then numbered_clauses_of (nm text)
  else if section_clauses_of text (sm text) ≠ [] then
    section_clauses_of text (sm text)
  else paragraph_clauses text

/-- Result record of `simplify_clause`.  The Python success dict has no
`error` key, the failure dict has one; the optional field models this. -/
structure SimplifyResult where
  original : String
  simplified : String
  original_length : Nat
  simplified_length : Nat
  reduction_percentage : ℚ
  error : Option String := none
deriving DecidableEq, Repr

/-- The record returned by the `except` branch of `simplify_clause`, with `e`
the text of the caught exception. -/
def simplifyError (clause_text e : String) : SimplifyResult :=
  { original := clause_text,
    simplified := "Error simplifying clause: " ++ e,
    original_length := clause_text.length,
    simplified_length := 0,
    reduction_percentage := 0,
    error := some e }

/-- Embedding of `ClauseAnalyzer.simplify_clause`.  `svc` is the outcome of
the `granite.generate` call.  When the call succeeds but `clause_text` is
empty, computing `reduction_percentage` divides by `len(clause_text) = 0`;
the `except Exception` handler catches the `ZeroDivisionError` raised while
building the success dict and returns the error record for it. -/
def simplify_clause (svc : Except String String) (clause_text : String)
    (max_length : Nat) : SimplifyResult :=
  match svc with
  | .error e => simplifyError clause_text e
  | .ok resp =>
    let trimmed := pyStrip resp
    let simplified :=
      if trimmed.length > max_length then pyTakeStr trimmed max_length ++ "..."
      else trimmed
    if clause_text.length = 0 then simplifyError clause_text "division by zero"
    else
      { original := clause_text,
        simplified := simplified,
        original_length := clause_text.length,
        simplified_length := simplified.length,
        reduction_percentage :=
          round2 ((1 - (simplified.length : ℚ) / (clause_text.length : ℚ)) * 100),
        error := none }

/-! ### Helper lemmas about the clause analyzer -/

theorem word_count_numbered {ms : List (String × String)} {c : Clause}
    (hc : c ∈ numbered_clauses_of ms) :
    c.word_count = (pySplitWs c.content).length := by
  simp only [numbered_clauses_of, List.mem_filterMap] at hc
  obtain ⟨m, -, hm⟩ := hc
  split at hm
  · cases hm; rfl
  · cases hm

theorem word_count_sections {text : String} : ∀ {ms : List SectionMatch} {c : Clause},
    c ∈ section_clauses_of text ms → c.word_count = (pySplitWs c.content).length
  | [], c, hc => by simp [section_clauses_of] at hc
  | m :: rest, c, hc => by
    simp only [section_clauses_of, List.mem_append] at hc
    rcases hc with hc | hc
    · split at hc
      · rcases List.mem_singleton.mp hc with rfl; rfl
      · cases hc
    · exact word_count_sections hc

theorem word_count_paragraphs {text : String} {c : Clause}
    (hc : c ∈ paragraph_clauses text) :
    c.word_count = (pySplitWs c.content).length := by
  have hc' := List.mem_of_mem_take hc
  simp only [List.mem_filterMap] at hc'
  obtain ⟨m, -, hm⟩ := hc'
  split at hm
  · cases hm; rfl
  · cases hm

/-- Generic first-match characterisation of `List.find?`. -/
theorem find?_eq_of_first {α} (p : α → Bool) :
    ∀ (l : List α) (i : Nat) (hi : i < l.length),
      p (l.get ⟨i, hi⟩) = true →
      (∀ j (hj : j < l.length), j < i → p (l.get ⟨j, hj⟩) = false) →
      l.find? p = some (l.get ⟨i, hi⟩)
  | a :: l, 0, _, hp, _ => by
    simp only [List.get] at hp
    simp [List.find?, hp]
  | a :: l, i + 1, hi, hp, hj => by
    have ha : p a = false := by
      have := hj 0 (Nat.succ_pos _) (Nat.succ_pos i)
      simpa [List.get] using this
    simp only [List.get] at hp
    have htail := find?_eq_of_first p l i (Nat.lt_of_succ_lt_succ hi) hp
      (fun j hjl hji => by
        have := hj (j + 1) (Nat.succ_lt_succ hjl) (Nat.succ_lt_succ hji)
        simpa [List.get] using this)
    simp [List.find?, List.get, ha, htail]

/-! ### Claim C1 -/

/-- C1: `extract_clauses` applies the three segmentation strategies as a
mutually exclusive cascade — a non-empty numbered-clause result is returned
as-is; otherwise a non-empty section-header result is returned; only when
both are empty does the paragraph fallback run, whose output is capped at 20
clauses. -/
theorem c1_extract_clauses_cascade (nm : String → List (String × String))
    (sm : String → List SectionMatch) (text : String) :
    (numbered_clauses_of (nm text) ≠ [] →
      extract_clauses nm sm text = numbered_clauses_of (nm text))
    ∧ (numbered_clauses_of (nm text) = [] →
        section_clauses_of text (sm text) ≠ [] →
        extract_clauses nm sm text = section_clauses_of text (sm text))
    ∧ (numbered_clauses_of (nm text) = [] →
        section_clauses_of text (sm text) = [] →
        extract_clauses nm sm text = paragraph_clauses text)
    ∧ (paragraph_clauses text).length ≤ 20 := by
  refine ⟨?_, ?_, ?_, ?_⟩
  · intro h; simp [extract_clauses, h]
  · intro h1 h2; simp [extract_clauses, h1, h2]
  · intro h1 h2; simp [extract_clauses, h1, h2]
  · exact List.length_take_le 20 _

/-- Oracle describing a text in which the numbered-clause pattern has no
matches. -/
def emptyNumOracle : String → List (String × String) := fun _ => []

/-- Oracle describing a text in which the section-header pattern has no
matches. -/
def emptySecOracle : String → List SectionMatch := fun _ => []

theorem c1_witness :
    extract_clauses emptyNumOracle emptySecOracle "short text" =
        paragraph_clauses "short text"
    ∧ (paragraph_clauses "short text").length ≤ 20 :=
  ⟨(c1_extract_clauses_cascade emptyNumOracle emptySecOracle "short text").2.2.1
      rfl rfl,
   (c1_extract_clauses_cascade emptyNumOracle emptySecOracle "short text").2.2.2⟩

/-! ### Claim C8 -/

/-- C8: every clause in the output of `extract_clauses` — whichever strategy
produced it — has `word_count` equal to the number of whitespace-split tokens
of its `content`. -/
theorem c8_word_count_consistency (nm : String → List (String × String))
    (sm : String → List SectionMatch) (text : String) (c : Clause)
    (hc : c ∈ extract_clauses nm sm text) :
    c.word_count = (pySplitWs c.content).length := by
  unfold extract_clauses at hc
  split at hc
  · exact word_count_numbered hc
  · split at hc
    · exact word_count_sections hc
    · exact word_count_paragraphs hc

/-- Oracle with one numbered-clause match, for the C8 witness. -/
def c8NumOracle : String → List (String × String) :=
  fun _ => [("1.", "The parties shall keep all exchanged material strictly private.")]

theorem c8_witness :
    ((extract_clauses c8NumOracle emptySecOracle "doc").headD
        { content := "", type := "", word_count := 0 }).word_count
      = (pySplitWs ((extract_clauses c8NumOracle emptySecOracle "doc").headD
          { content := "", type := "", word_count := 0 }).content).length :=
  c8_word_count_consistency c8NumOracle emptySecOracle "doc" _ (by decide)

/-! ### Claim C4 -/

/-- C4: `_identify_clause_type` is total and ordered — it always returns a
non-empty label; the first (in catalog order) of the 16 type names whose
space-stripped form occurs in the space-stripped lowercased text wins, and is
returned in title case; with no catalog hit the ordered fallback keyword
groups are consulted, first match winning; with no hit at all the result is
`General`. -/
theorem c4_identify_clause_type_total_ordered (text : String) :
    identify_clause_type text ≠ ""
    ∧ (∀ i (hi : i < clause_types.length),
        hasSubStr (stripSpaces (clause_types.get ⟨i, hi⟩))
            (stripSpaces (pyLower text)) = true →
        (∀ j (hj : j < clause_types.length), j < i →
          hasSubStr (stripSpaces (clause_types.get ⟨j, hj⟩))
              (stripSpaces (pyLower text)) = false) →
        identify_clause_type text = pyTitle (clause_types.get ⟨i, hi⟩))
    ∧ (catalogHit (pyLower text) = none →
        (definitionsWords.any (fun w => hasSubStr w (pyLower text)) = true →
          identify_clause_type text = "Definitions")
        ∧ (definitionsWords.any (fun w => hasSubStr w (pyLower text)) = false ∧
           terminationWords.any (fun w => hasSubStr w (pyLower text)) = true →
          identify_clause_type text = "Termination")
        ∧ (definitionsWords.any (fun w => hasSubStr w (pyLower text)) = false ∧
           terminationWords.any (fun w => hasSubStr w (pyLower text)) = false ∧
           paymentWords.any (fun w => hasSubStr w (pyLower text)) = true →
          identify_clause_type text = "Payment")
        ∧ (definitionsWords.any (fun w => hasSubStr w (pyLower text)) = false ∧
           terminationWords.any (fun w => hasSubStr w (pyLower text)) = false ∧
           paymentWords.any (fun w => hasSubStr w (pyLower text)) = false ∧
           confidentialityWords.any (fun w => hasSubStr w (pyLower text)) = true →
          identify_clause_type text = "Confidentiality")
        ∧ (definitionsWords.any (fun w => hasSubStr w (pyLower text)) = false ∧
           terminationWords.any (fun w => hasSubStr w (pyLower text)) = false ∧
           paymentWords.any (fun w => hasSubStr w (pyLower text)) = false ∧
           confidentialityWords.any (fun w => hasSubStr w (pyLower text)) = false ∧
           liabilityWords.any (fun w => hasSubStr w (pyLower text)) = true →
          identify_clause_type text = "Liability")
        ∧ (definitionsWords.any (fun w => hasSubStr w (pyLower text)) = false ∧
           terminationWords.any (fun w => hasSubStr w (pyLower text)) = false ∧
           paymentWords.any (fun w => hasSubStr w (pyLower text)) = false ∧
           confidentialityWords.any (fun w => hasSubStr w (pyLower text)) = false ∧
           liabilityWords.any (fun w => hasSubStr w (pyLower text)) = false ∧
           warrantiesWords.any (fun w => hasSubStr w (pyLower text)) = true →
          identify_clause_type text = "Warranties")
        ∧ (definitionsWords.any (fun w => hasSubStr w (pyLower text)) = false ∧
           terminationWords.any (fun w => hasSubStr w (pyLower text)) = false ∧
           paymentWords.any (fun w => hasSubStr w (pyLower text)) = false ∧
           confidentialityWords.any (fun w => hasSubStr w (pyLower text)) = false ∧
           liabilityWords.any (fun w => hasSubStr w (pyLower text)) = false ∧
           warrantiesWords.any (fun w => hasSubStr w (pyLower text)) = false →
          identify_clause_type text = "General")) := by
  refine ⟨?_, ?_, ?_⟩
  · cases h : catalogHit (pyLower text) with
    | some ct =>
      have hmem : ct ∈ clause_types := List.mem_of_find?_eq_some h
      have hall : ∀ ct ∈ clause_types, pyTitle ct ≠ "" := by decide
      simp only [identify_clause_type, h]
      exact hall ct hmem
    | none =>
      simp only [identify_clause_type, h]
      split_ifs <;> decide
  · intro i hi hp hj
    have hfind : catalogHit (pyLower text) = some (clause_types.get ⟨i, hi⟩) :=
      find?_eq_of_first _ clause_types i hi hp hj
    simp [identify_clause_type, hfind]
  · intro h
    refine ⟨?_, ?_, ?_, ?_, ?_, ?_, ?_⟩ <;>
      (intro hyp) <;>
      simp only [identify_clause_type, h] <;>
      simp [hyp]

theorem c4_witness :
    identify_clause_type "" = "General" ∧ identify_clause_type "" ≠ "" :=
  ⟨((c4_identify_clause_type_total_ordered "").2.2 (by decide)).2.2.2.2.2.2
      (by decide),
   (c4_identify_clause_type_total_ordered "").1⟩

/-! ### Claim C5 -/

/-- C5 counterexample: at `clause_text = ""`, `maxLength = 0` and service
response `"hi"`, building the success dict divides by `len(clause_text) = 0`;
the handler returns the error record, whose `simplified` field is the
42-character error message — longer than `maxLength + 3 = 3`.  The claim's
bound therefore fails for the empty clause text. -/
theorem c5_counterexample :
    (simplify_clause (Except.ok "hi") "" 0).simplified
        = "Error simplifying clause: division by zero"
    ∧ ¬ ((simplify_clause (Except.ok "hi") "" 0).simplified.length ≤ 0 + 3) := by
  exact ⟨rfl, by decide⟩

/-- C5 (amended): for every clause text of positive length, every `maxLength`
and every service response, the trimmed response is returned unchanged when
its length is at most `maxLength`, is otherwise hard-truncated to its first
`maxLength` characters plus a three-character ellipsis, and in either case the
`simplified` field has length at most `maxLength + 3`. -/
theorem c5_simplify_truncation (resp text : String) (n : Nat) (h : text ≠ "") :
    ((pyStrip resp).length ≤ n →
      (simplify_clause (Except.ok resp) text n).simplified = pyStrip resp)
    ∧ (n < (pyStrip resp).length →
      (simplify_clause (Except.ok resp) text n).simplified
        = pyTakeStr (pyStrip resp) n ++ "...")
    ∧ (simplify_clause (Except.ok resp) text n).simplified.length ≤ n + 3 := by
  have hlen : ¬ (text.length = 0) := fun h0 => h ((String.length_eq_zero' text).mp h0)
  simp only [simplify_clause, hlen, if_false]
  by_cases hgt : (pyStrip resp).length > n
  · refine ⟨fun hle => absurd hgt (by omega), fun _ => by simp [hgt], ?_⟩
    have htake : (pyTakeStr (pyStrip resp) n).length = n := by
      simp only [pyTakeStr, String.length_mk', List.length_take]
      have hsl : (pyStrip resp).toList.length = (pyStrip resp).length := rfl
      omega
    have hdots : ("..." : String).length = 3 := rfl
    rw [if_pos hgt, String.length_append', htake, hdots]
  · refine ⟨fun _ => by simp [hgt], fun hlt => absurd hlt (by omega), ?_⟩
    rw [if_neg hgt]
    omega

theorem c5_witness :
    (simplify_clause (Except.ok "hi") "x" 0).simplified = pyTakeStr (pyStrip "hi") 0 ++ "..."
    ∧ (simplify_clause (Except.ok "hi") "x" 0).simplified.length ≤ 0 + 3 :=
  ⟨(c5_simplify_truncation "hi" "x" 0 (by decide)).2.1 (by decide),
   (c5_simplify_truncation "hi" "x" 0 (by decide)).2.2⟩

/-! ### Claim C6 -/

/-- C6: `simplify_clause` never raises past its boundary — for every outcome
of the service call it returns a record (here: a total function whose
`original` field always echoes the input), and on service failure the record's
`simplified` field holds an error message, `reduction_percentage` is 0, and
the error text is preserved in the separate `error` field. -/
theorem c6_simplify_error_boundary (text : String) (n : Nat) (e : String) :
    (simplify_clause (Except.error e) text n).simplified
        = "Error simplifying clause: " ++ e
    ∧ (simplify_clause (Except.error e) text n).reduction_percentage = 0
    ∧ (simplify_clause (Except.error e) text n).error = some e
    ∧ ∀ svc : Except String String, (simplify_clause svc text n).original = text := by
  refine ⟨rfl, rfl, rfl, fun svc => ?_⟩
  cases svc with
  | error e' => rfl
  | ok resp =>
    simp only [simplify_clause]
    split <;> rfl

/-! ### Claim C10 -/

/-- C10: on the service-failure path the returned record's
`simplified_length` is 0 although `simplified` is a non-empty error message,
so the two disagree; on the success path (the record without an `error`
marker) `simplified_length` equals the length of `simplified` exactly. -/
theorem c10_simplified_length_fields (text : String) (n : Nat) :
    (∀ e, (simplify_clause (Except.error e) text n).simplified_length = 0
      ∧ (simplify_clause (Except.error e) text n).simplified ≠ ""
      ∧ (simplify_clause (Except.error e) text n).simplified_length
          ≠ (simplify_clause (Except.error e) text n).simplified.length)
    ∧ (∀ resp, (simplify_clause (Except.ok resp) text n).error = none →
        (simplify_clause (Except.ok resp) text n).simplified_length
          = (simplify_clause (Except.ok resp) text n).simplified.length) := by
  have hpre : ("Error simplifying clause: " : String).length = 26 := rfl
  constructor
  · intro e
    refine ⟨rfl, ?_, ?_⟩
    · intro hemp
      simp only [simplify_clause, simplifyError] at hemp
      have h := congrArg String.length hemp
      rw [String.length_append', hpre] at h
      have h0 : ("" : String).length = 0 := rfl
      omega
    · intro heq
      simp only [simplify_clause, simplifyError] at heq
      have h : (0 : Nat) = ("Error simplifying clause: " ++ e).length := heq
      rw [String.length_append', hpre] at h
      omega
  · intro resp herr
    by_cases h0 : text.length = 0
    · simp only [simplify_clause, h0, if_true, simplifyError] at herr
      exact Option.noConfusion herr
    · simp only [simplify_clause, h0, if_false]

theorem c10_witness :
    (simplify_clause (Except.ok "hello") "xy" 9).simplified_length
        = (simplify_clause (Except.ok "hello") "xy" 9).simplified.length
    ∧ (simplify_clause (Except.error "boom") "xy" 9).simplified_length = 0
    ∧ (simplify_clause (Except.error "boom") "xy" 9).simplified ≠ "" :=
  ⟨(c10_simplified_length_fields "xy" 9).2 "hello" rfl,
   ((c10_simplified_length_fields "xy" 9).1 "boom").1,
   ((c10_simplified_length_fields "xy" 9).1 "boom").2.1⟩

/-! ## A small regex engine for the classifier's scoring patterns

Every pattern in `DocumentClassifier.document_signatures` is a concatenation
of literal characters, single `[-\s]` classes and `\s+` runs.  For such
patterns a greedy matcher without backtracking is equivalent to Python `re`
semantics, because each `\s+` is followed by a non-whitespace literal.
`scanCount` reproduces `len(re.findall(pattern, text))`: a left-to-right scan
counting non-overlapping matches. -/

/-- One atom of a scoring pattern. -/
inductive Atom where
  | lit (c : Char)
  | dashWs
  | wsPlus
deriving DecidableEq, Repr

/-- Greedy matcher: try to match the atom list at the head of the character
list, returning the unconsumed suffix on success. -/
def matchAtoms : List Atom → List Char → Option (List Char)
  | [], cs => some cs
  | .lit _ :: _, [] => none
  | .lit a :: as, c :: cs => if c = a then matchAtoms as cs else none
  | .dashWs :: _, [] => none
  | .dashWs :: as, c :: cs =>
    if c = '-' ∨ isWsChar c then matchAtoms as cs else none
  | .wsPlus :: as, cs =>
    if (cs.takeWhile isWsChar).isEmpty then none
    else matchAtoms as (cs.dropWhile isWsChar)

theorem matchAtoms_length_le :
    ∀ (p : List Atom) (cs r : List Char), matchAtoms p cs = some r →
      r.length ≤ cs.length
  | [], cs, r, h => by cases h; exact Nat.le_refl _
  | .lit a :: as, [], r, h => by cases h
  | .lit a :: as, c :: cs, r, h => by
    by_cases hc : c = a
    · simp only [matchAtoms, if_pos hc] at h
      exact Nat.le_succ_of_le (matchAtoms_length_le as cs r h)
    · simp [matchAtoms, hc] at h
  | .dashWs :: as, [], r, h => by cases h
  | .dashWs :: as, c :: cs, r, h => by
    by_cases hc : c = '-' ∨ isWsChar c
    · simp only [matchAtoms, if_pos hc] at h
      exact Nat.le_succ_of_le (matchAtoms_length_le as cs r h)
    · simp [matchAtoms, hc] at h
  | .wsPlus :: as, cs, r, h => by
    by_cases he : (cs.takeWhile isWsChar).isEmpty
    · simp [matchAtoms, he] at h
    · simp only [matchAtoms, he, if_false] at h
      calc r.length ≤ (cs.dropWhile isWsChar).length :=
            matchAtoms_length_le as _ r h
        _ ≤ cs.length := (List.dropWhile_sublist _).length_le

theorem matchAtoms_length_lt :
    ∀ (p : List Atom) (cs r : List Char), p ≠ [] → matchAtoms p cs = some r →
      r.length < cs.length := by
  intro p cs r hp h
  match p, cs with
  | [], _ => exact absurd rfl hp
  | .lit a :: as, [] => cases h
  | .lit a :: as, c :: cs =>
    by_cases hc : c = a
    · simp only [matchAtoms, if_pos hc] at h
      exact Nat.lt_succ_of_le (matchAtoms_length_le as cs r h)
    · simp [matchAtoms, hc] at h
  | .dashWs :: as, [] => cases h
  | .dashWs :: as, c :: cs =>
    by_cases hc : c = '-' ∨ isWsChar c
    · simp only [matchAtoms, if_pos hc] at h
      exact Nat.lt_succ_of_le (matchAtoms_length_le as cs r h)
    · simp [matchAtoms, hc] at h
  | .wsPlus :: as, cs =>
    by_cases he : (cs.takeWhile isWsChar).isEmpty
    · simp [matchAtoms, he] at h
    · simp only [matchAtoms, he, if_false] at h
      have hle : r.length ≤ (cs.dropWhile isWsChar).length :=
        matchAtoms_length_le as _ r h
      have hlt : (cs.dropWhile isWsChar).length < cs.length := by
        have hsum := List.takeWhile_append_dropWhile (p := isWsChar) (l := cs)
        have hlen := congrArg List.length hsum
        rw [List.length_append] at hlen
        have hpos : 0 < (cs.takeWhile isWsChar).length := by
          cases htk : cs.takeWhile isWsChar with
          | nil => rw [htk] at he; simp at he
          | cons x xs => simp [htk]
        omega
      omega

theorem matchAtoms_suffix :
    ∀ (p : List Atom) (cs r : List Char), matchAtoms p cs = some r →
      ∃ t, cs = t ++ r
  | [], cs, r, h => by cases h; exact ⟨[], rfl⟩
  | .lit a :: as, [], r, h => by cases h
  | .lit a :: as, c :: cs, r, h => by
    by_cases hc : c = a
    · simp only [matchAtoms, if_pos hc] at h
      obtain ⟨t, ht⟩ := matchAtoms_suffix as cs r h
      exact ⟨c :: t, by rw [List.cons_append, ← ht]⟩
    · simp [matchAtoms, hc] at h
  | .dashWs :: as, [], r, h => by cases h
  | .dashWs :: as, c :: cs, r, h => by
    by_cases hc : c = '-' ∨ isWsChar c
    · simp only [matchAtoms, if_pos hc] at h
      obtain ⟨t, ht⟩ := matchAtoms_suffix as cs r h
      exact ⟨c :: t, by rw [List.cons_append, ← ht]⟩
    · simp [matchAtoms, hc] at h
  | .wsPlus :: as, cs, r, h => by
    by_cases he : (cs.takeWhile isWsChar).isEmpty
    · simp [matchAtoms, he] at h
    · simp only [matchAtoms, he, if_false] at h
      obtain ⟨t, ht⟩ := matchAtoms_suffix as _ r h
      refine ⟨cs.takeWhile isWsChar ++ t, ?_⟩
      conv_lhs => rw [← List.takeWhile_append_dropWhile (p := isWsChar) (l := cs)]
      rw [ht, List.append_assoc]

/-- Well-formedness of the atoms of a scoring pattern: literals are neither
whitespace nor a dash, and every `\s+` is immediately followed by a
non-whitespace literal.  Every pattern of the classifier catalog satisfies
this (checked by `decide` where needed). -/
def wfAux : List Atom → Bool
  | [] => true
  | .lit c :: rest => !isWsChar c && !(c == '-') && wfAux rest
  | .dashWs :: rest => wfAux rest
  | .wsPlus :: rest =>
    (match rest with
     | .lit c :: _ => !isWsChar c
     | _ => false) && wfAux rest

/-- Number of literal atoms of a pattern. -/
def numLits (p : List Atom) : Nat :=
  p.countP (fun a => match a with | .lit _ => true | _ => false)

/-- A whole pattern is well formed when it is non-empty, has at least one
literal and satisfies `wfAux`. -/
def wfPat (p : List Atom) : Bool :=
  !p.isEmpty && (p.any (fun a => match a with | .lit _ => true | _ => false))
    && wfAux p

/-- Characters that can only be consumed by a literal atom of a well-formed
pattern (neither whitespace nor a dash). -/
def keepChar (c : Char) : Bool := !(isWsChar c || c == '-')

/-- Count of non-separator characters. -/
def nonSep (cs : List Char) : Nat := cs.countP keepChar

/-- Fuelled scanner behind `scanCount`, mirroring `re.findall`'s
left-to-right non-overlapping scan.  The fuel is instantiated with the length
of the list; none of the catalog's patterns can match the empty string, so
each step consumes at least one character. -/
def scanFuel : Nat → List Atom → List Char → Nat
  | _, _, [] => 0
  | 0, _, _ :: _ => 0
  | fuel + 1, p, c :: rest =>
    match matchAtoms p (c :: rest) with
    | some r => 1 + scanFuel fuel p r
    | none => scanFuel fuel p rest

/-- Embedding of `len(re.findall(pattern, text))` for a scoring pattern. -/
def scanCount (p : List Atom) (cs : List Char) : Nat :=
  scanFuel cs.length p cs

theorem scanFuel_nilc (f : Nat) (p : List Atom) : scanFuel f p [] = 0 := by
  cases f <;> rfl

theorem scanFuel_irrel (p : List Atom) (hp : p ≠ []) :
    ∀ (f1 : Nat) (cs : List Char) (f2 : Nat), cs.length ≤ f1 → cs.length ≤ f2 →
      scanFuel f1 p cs = scanFuel f2 p cs
  | f1, [], f2, _, _ => by rw [scanFuel_nilc, scanFuel_nilc]
  | 0, c :: rest, _, h1, _ => by simp at h1
  | f1 + 1, c :: rest, 0, _, h2 => by simp at h2
  | f1 + 1, c :: rest, f2 + 1, h1, h2 => by
    cases h : matchAtoms p (c :: rest) with
    | some r =>
      have hr : r.length < rest.length + 1 := matchAtoms_length_lt p _ r hp h
      have ih := scanFuel_irrel p hp f1 r f2
        (by simp at h1; omega) (by simp at h2; omega)
      simp only [scanFuel, h, ih]
    | none =>
      have ih := scanFuel_irrel p hp f1 rest f2
        (by simp at h1; omega) (by simp at h2; omega)
      simp only [scanFuel, h, ih]

theorem scanCount_nil (p : List Atom) : scanCount p [] = 0 := rfl

theorem scanCount_cons_some {p : List Atom} (hp : p ≠ []) {c : Char}
    {rest r : List Char} (h : matchAtoms p (c :: rest) = some r) :
    scanCount p (c :: rest) = 1 + scanCount p r := by
  have hr : r.length < rest.length + 1 := matchAtoms_length_lt p _ r hp h
  show scanFuel (rest.length + 1) p (c :: rest) = _
  simp only [scanFuel, h]
  exact congrArg _ (scanFuel_irrel p hp rest.length r r.length
    (by omega) (Nat.le_refl _))

theorem scanCount_cons_none {p : List Atom} (hp : p ≠ []) {c : Char}
    {rest : List Char} (h : matchAtoms p (c :: rest) = none) :
    scanCount p (c :: rest) = scanCount p rest := by
  show scanFuel (rest.length + 1) p (c :: rest) = _
  simp only [scanFuel, h]
  exact scanFuel_irrel p hp rest.length rest rest.length (Nat.le_refl _) (Nat.le_refl _)

theorem dropWhile_append_ne_nil {q : Char → Bool} :
    ∀ {cs : List Char}, cs.dropWhile q ≠ [] → ∀ (s : List Char),
      (cs ++ s).dropWhile q = cs.dropWhile q ++ s
  | [], h, _ => absurd rfl h
  | c :: t, h, s => by
    by_cases hc : q c
    · simp only [List.dropWhile_cons, hc, if_true] at h ⊢
      simp only [List.cons_append, List.dropWhile_cons, hc, if_true]
      exact dropWhile_append_ne_nil h s
    · simp [List.dropWhile_cons, hc]

theorem takeWhile_append_ne_nil {q : Char → Bool} :
    ∀ {cs : List Char}, cs.dropWhile q ≠ [] → ∀ (s : List Char),
      (cs ++ s).takeWhile q = cs.takeWhile q
  | [], h, _ => absurd rfl h
  | c :: t, h, s => by
    by_cases hc : q c
    · simp only [List.dropWhile_cons, hc, if_true] at h
      simp only [List.cons_append, List.takeWhile_cons, hc, if_true]
      rw [takeWhile_append_ne_nil h s]
    · simp [List.takeWhile_cons, hc]

theorem dropWhile_append_all {q : Char → Bool} :
    ∀ {cs : List Char}, cs.dropWhile q = [] → ∀ (s : List Char),
      (cs ++ s).dropWhile q = s.dropWhile q
  | [], _, _ => rfl
  | c :: t, h, s => by
    by_cases hc : q c
    · simp only [List.dropWhile_cons, hc, if_true] at h
      simp only [List.cons_append, List.dropWhile_cons, hc, if_true]
      exact dropWhile_append_all h s
    · simp [List.dropWhile_cons, hc] at h

theorem matchAtoms_nonSep :
    ∀ (p : List Atom) (cs r : List Char), wfAux p = true →
      matchAtoms p cs = some r → nonSep cs = numLits p + nonSep r
  | [], cs, r, _, h => by cases h; simp [numLits, List.countP_nil]
  | .lit a :: as, [], r, _, h => by cases h
  | .lit a :: as, c :: cs, r, hw, h => by
    by_cases hc : c = a
    · simp only [matchAtoms, if_pos hc] at h
      simp only [wfAux, Bool.and_eq_true, Bool.not_eq_eq_eq_not, Bool.not_true] at hw
      have hkeep : keepChar c = true := by
        subst hc
        simp [keepChar, hw.1.1, hw.1.2]
      have ih := matchAtoms_nonSep as cs r hw.2 h
      have hns : nonSep (c :: cs) = nonSep cs + 1 := by
        simp [nonSep, List.countP_cons, hkeep]
      have hnl : numLits (.lit a :: as) = numLits as + 1 := by
        simp [numLits, List.countP_cons]
      rw [hns, hnl, ih]
      omega
    · simp [matchAtoms, hc] at h
  | .dashWs :: as, [], r, _, h => by cases h
  | .dashWs :: as, c :: cs, r, hw, h => by
    by_cases hc : c = '-' ∨ isWsChar c
    · simp only [matchAtoms, if_pos hc] at h
      have hw' : wfAux as = true := hw
      have hkeep : keepChar c = false := by
        rcases hc with hc | hc
        · simp [keepChar, hc]
        · simp [keepChar, hc]
      have ih := matchAtoms_nonSep as cs r hw' h
      have hns : nonSep (c :: cs) = nonSep cs := by
        simp [nonSep, List.countP_cons, hkeep]
      have hnl : numLits (.dashWs :: as) = numLits as := by
        simp [numLits, List.countP_cons]
      rw [hns, hnl, ih]
    · simp [matchAtoms, hc] at h
  | .wsPlus :: as, cs, r, hw, h => by
    by_cases he : (cs.takeWhile isWsChar).isEmpty
    · simp [matchAtoms, he] at h
    · simp only [matchAtoms, he, if_false] at h
      simp only [wfAux, Bool.and_eq_true] at hw
      have ih := matchAtoms_nonSep as _ r hw.2 h
      have htw : nonSep (cs.takeWhile isWsChar) = 0 := by
        rw [nonSep, List.countP_eq_zero]
        intro a ha
        have := List.mem_takeWhile_imp ha
        simp [keepChar, this]
      have hsplit : nonSep cs = nonSep (cs.takeWhile isWsChar)
          + nonSep (cs.dropWhile isWsChar) := by
        conv_lhs => rw [← List.takeWhile_append_dropWhile (p := isWsChar) (l := cs)]
        exact List.countP_append _ _ _
      have hnl : numLits (.wsPlus :: as) = numLits as := by
        simp [numLits, List.countP_cons]
      rw [hsplit, htw, hnl, ih]
      omega

theorem matchAtoms_extend :
    ∀ (p : List Atom) (cs r : List Char), wfAux p = true →
      matchAtoms p cs = some r → ∀ (s : List Char),
      matchAtoms p (cs ++ s) = some (r ++ s)
  | [], cs, r, _, h, s => by cases h; rfl
  | .lit a :: as, [], r, _, h, _ => by cases h
  | .lit a :: as, c :: cs, r, hw, h, s => by
    by_cases hc : c = a
    · simp only [matchAtoms, if_pos hc] at h
      simp only [wfAux, Bool.and_eq_true] at hw
      simp only [List.cons_append, matchAtoms, if_pos hc]
      exact matchAtoms_extend as cs r hw.2 h s
    · simp [matchAtoms, hc] at h
  | .dashWs :: as, [], r, _, h, _ => by cases h
  | .dashWs :: as, c :: cs, r, hw, h, s => by
    by_cases hc : c = '-' ∨ isWsChar c
    · simp only [matchAtoms, if_pos hc] at h
      simp only [List.cons_append, matchAtoms, if_pos hc]
      exact matchAtoms_extend as cs r hw h s
    · simp [matchAtoms, hc] at h
  | .wsPlus :: as, cs, r, hw, h, s => by
    by_cases he : (cs.takeWhile isWsChar).isEmpty
    · simp [matchAtoms, he] at h
    · simp only [matchAtoms, he, if_false] at h
      simp only [wfAux, Bool.and_eq_true] at hw
      obtain ⟨hshape, hwas⟩ := hw
      have hdne : cs.dropWhile isWsChar ≠ [] := by
        intro hnil
        rw [hnil] at h
        match as, hshape with
        | .lit c' :: as'', _ => cases h
      have htw := takeWhile_append_ne_nil hdne s
      have hdw := dropWhile_append_ne_nil hdne s
      simp only [matchAtoms, htw, he, if_false, hdw]
      exact matchAtoms_extend as _ r hwas h s

theorem matchAtoms_bridge_le :
    ∀ (p : List Atom) (cs s r : List Char), matchAtoms p cs = none →
      matchAtoms p (cs ++ s) = some r → r.length ≤ s.length
  | [], cs, _, _, h1, _ => by cases h1
  | .lit a :: as, [], s, r, _, h2 =>
    matchAtoms_length_le _ s r (by simpa using h2)
  | .lit a :: as, c :: t, s, r, h1, h2 => by
    by_cases hc : c = a
    · simp only [matchAtoms, if_pos hc] at h1
      simp only [List.cons_append, matchAtoms, if_pos hc] at h2
      exact matchAtoms_bridge_le as t s r h1 h2
    · simp [List.cons_append, matchAtoms, hc] at h2
  | .dashWs :: as, [], s, r, _, h2 =>
    matchAtoms_length_le _ s r (by simpa using h2)
  | .dashWs :: as, c :: t, s, r, h1, h2 => by
    by_cases hc : c = '-' ∨ isWsChar c
    · simp only [matchAtoms, if_pos hc] at h1
      simp only [List.cons_append, matchAtoms, if_pos hc] at h2
      exact matchAtoms_bridge_le as t s r h1 h2
    · simp [List.cons_append, matchAtoms, hc] at h2
  | .wsPlus :: as, [], s, r, _, h2 =>
    matchAtoms_length_le _ s r (by simpa using h2)
  | .wsPlus :: as, c :: t, s, r, h1, h2 => by
    by_cases he : ((c :: t).takeWhile isWsChar).isEmpty
    · have hc : isWsChar c = false := by
        cases hcc : isWsChar c
        · rfl
        · simp [List.takeWhile_cons, hcc] at he
      simp only [List.cons_append] at h2
      simp [matchAtoms, List.takeWhile_cons, hc] at h2
    · simp only [matchAtoms, he, if_false] at h1
      by_cases hd : (c :: t).dropWhile isWsChar = []
      · have hdw := dropWhile_append_all hd s
        have hc : isWsChar c = true := by
          cases hcc : isWsChar c
          · simp [List.dropWhile_cons, hcc] at hd
          · rfl
        have hbool : (((c :: t) ++ s).takeWhile isWsChar).isEmpty = false := by
          simp [List.cons_append, List.takeWhile_cons, hc]
        simp only [matchAtoms, hbool, Bool.false_eq_true, if_false, hdw] at h2
        calc r.length ≤ (s.dropWhile isWsChar).length :=
              matchAtoms_length_le as _ r h2
          _ ≤ s.length := (List.dropWhile_sublist _).length_le
      · have hdw := dropWhile_append_ne_nil hd s
        have htw := takeWhile_append_ne_nil hd s
        simp only [matchAtoms, htw, he, if_false, hdw] at h2
        exact matchAtoms_bridge_le as _ s r h1 h2

theorem drop_append_ge :
    ∀ (cs s : List Char) (k : Nat), cs.length ≤ k →
      (cs ++ s).drop k = s.drop (k - cs.length)
  | [], s, k, _ => by simp
  | c :: t, s, 0, h => by simp at h
  | c :: t, s, k + 1, h => by
    simp only [List.cons_append, List.drop_succ_cons]
    rw [drop_append_ge t s k (by simpa using h)]
    simp

theorem scanCount_mul_le {p : List Atom} (hp : p ≠ []) (hw : wfAux p = true) :
    ∀ (n : Nat) (cs : List Char), cs.length ≤ n →
      scanCount p cs * numLits p ≤ nonSep cs
  | 0, cs, hn => by
    have : cs = [] := List.length_eq_zero.mp (Nat.le_zero.mp hn)
    subst this
    simp [scanCount_nil]
  | n + 1, [], _ => by simp [scanCount_nil]
  | n + 1, c :: rest, hn => by
    cases h : matchAtoms p (c :: rest) with
    | some r =>
      have hlt : r.length < rest.length + 1 := matchAtoms_length_lt p _ r hp h
      have hns := matchAtoms_nonSep p _ r hw h
      have ih := scanCount_mul_le hp hw n r (by simp at hn; omega)
      rw [scanCount_cons_some hp h, hns, Nat.add_mul, Nat.one_mul]
      omega
    | none =>
      have ih := scanCount_mul_le hp hw n rest (by simp at hn; omega)
      rw [scanCount_cons_none hp h]
      have : nonSep rest ≤ nonSep (c :: rest) := by
        simp only [nonSep, List.countP_cons]
        omega
      omega

theorem numLits_pos {p : List Atom}
    (ha : p.any (fun a => match a with | .lit _ => true | _ => false) = true) :
    0 < numLits p := by
  rw [numLits, List.countP_pos_iff]
  obtain ⟨a, hmem, hpa⟩ := List.any_eq_true.mp ha
  exact ⟨a, hmem, hpa⟩

theorem scanCount_le_one_of_bridge {p : List Atom} (hwf : wfPat p = true)
    {cs s r : List Char} (h2 : matchAtoms p (cs ++ s) = some r)
    (hr : r.length ≤ s.length) : scanCount p cs ≤ 1 := by
  simp only [wfPat, Bool.and_eq_true, Bool.not_eq_eq_eq_not, Bool.not_true,
    List.isEmpty_eq_false] at hwf
  obtain ⟨⟨hp, hany⟩, hw⟩ := hwf
  have hns := matchAtoms_nonSep p _ r hw h2
  have hsplit : nonSep (cs ++ s) = nonSep cs + nonSep s := List.countP_append _ _ _
  -- the unconsumed suffix `r` is a suffix of `s`
  obtain ⟨t, ht⟩ := matchAtoms_suffix p _ r h2
  have hlen : t.length + r.length = cs.length + s.length := by
    have := congrArg List.length ht
    simp only [List.length_append] at this
    omega
  have htlen : cs.length ≤ t.length := by omega
  have hrdrop : r = s.drop (t.length - cs.length) := by
    have h1 : (t ++ r).drop t.length = r := by simp
    rw [← ht] at h1
    rw [drop_append_ge cs s t.length htlen] at h1
    exact h1.symm
  have hrs : nonSep r ≤ nonSep s := by
    rw [hrdrop]
    exact List.Sublist.countP_le _ (List.drop_sublist _ _)
  have hcs_le : nonSep cs ≤ numLits p := by omega
  have hmul := scanCount_mul_le hp hw cs.length cs (Nat.le_refl _)
  have hpos := numLits_pos hany
  by_contra hgt
  have h2le : 2 ≤ scanCount p cs := by omega
  have : 2 * numLits p ≤ scanCount p cs * numLits p :=
    Nat.mul_le_mul_right _ h2le
  omega

theorem scanCount_append_le_aux {p : List Atom} (hwf : wfPat p = true) :
    ∀ (n : Nat) (cs : List Char), cs.length ≤ n → ∀ (s : List Char),
      scanCount p cs ≤ scanCount p (cs ++ s)
  | 0, cs, hn, s => by
    have : cs = [] := List.length_eq_zero.mp (Nat.le_zero.mp hn)
    subst this
    simp [scanCount_nil]
  | n + 1, [], _, s => by simp [scanCount_nil]
  | n + 1, c :: rest, hn, s => by
    have hwf' := hwf
    simp only [wfPat, Bool.and_eq_true, Bool.not_eq_eq_eq_not, Bool.not_true,
      List.isEmpty_eq_false] at hwf'
    obtain ⟨⟨hp, _⟩, hw⟩ := hwf'
    cases h : matchAtoms p (c :: rest) with
    | some r =>
      have hlt : r.length < rest.length + 1 := matchAtoms_length_lt p _ r hp h
      have hext := matchAtoms_extend p _ r hw h s
      rw [List.cons_append] at hext ⊢
      rw [scanCount_cons_some hp h, scanCount_cons_some hp hext]
      have ih := scanCount_append_le_aux hwf n r (by simp at hn; omega) s
      omega
    | none =>
      rw [scanCount_cons_none hp h]
      cases h2 : matchAtoms p ((c :: rest) ++ s) with
      | none =>
        rw [List.cons_append] at h2 ⊢
        rw [scanCount_cons_none hp h2]
        exact scanCount_append_le_aux hwf n rest (by simp at hn; omega) s
      | some r =>
        have hr : r.length ≤ s.length := matchAtoms_bridge_le p _ s r h h2
        have hone : scanCount p (c :: rest) ≤ 1 :=
          scanCount_le_one_of_bridge hwf h2 hr
        rw [scanCount_cons_none hp h] at hone
        rw [List.cons_append] at h2 ⊢
        rw [scanCount_cons_some hp h2]
        omega

/-- Monotonicity of the match count under appending a suffix (for the
well-formed pattern shapes used in the classifier catalog). -/
theorem scanCount_mono {p : List Atom} (hwf : wfPat p = true)
    (cs s : List Char) : scanCount p cs ≤ scanCount p (cs ++ s) :=
  scanCount_append_le_aux hwf cs.length cs (Nat.le_refl _) s

/-! ## Document classifier (`src/utils/doc_classifier.py`) -/

/-- Sequence of literal atoms for a pattern fragment. -/
def lits (s : String) : List Atom := s.toList.map Atom.lit

/-- The `\s+` fragment. -/
def wsp : List Atom := [Atom.wsPlus]

/-- One catalog entry of `DocumentClassifier.document_signatures`. -/
structure Signature where
  name : String
  keywords : List String
  patterns : List (List Atom)
  weight : ℚ
deriving DecidableEq, Repr

/-- The NDA signature. -/
def ndaSig : Signature :=
  { name := "Non-Disclosure Agreement (NDA)",
    keywords := ["confidential", "non-disclosure", "proprietary information",
                 "trade secret", "confidentiality", "receiving party", "disclosing party"],
    patterns := [lits "non" ++ [Atom.dashWs] ++ lits "disclosure", lits "NDA",
                 lits "confidentiality" ++ wsp ++ lits "agreement"],
    weight := 1 }

/-- The Employment Contract signature. -/
def employmentSig : Signature :=
  { name := "Employment Contract",
    keywords := ["employee", "employer", "employment", "salary", "compensation",
                 "job title", "duties", "responsibilities", "benefits", "vacation",
                 "termination of employment", "at-will"],
    patterns := [lits "employment" ++ wsp ++ lits "agreement",
                 lits "offer" ++ wsp ++ lits "letter",
                 lits "employee" ++ wsp ++ lits "handbook"],
    weight := 1 }

/-- The Lease Agreement signature. -/
def leaseSig : Signature :=
  { name := "Lease Agreement",
    keywords := ["lease", "tenant", "landlord", "rent", "premises", "property",
                 "security deposit", "maintenance", "lease term", "rental"],
    patterns := [lits "lease" ++ wsp ++ lits "agreement",
                 lits "rental" ++ wsp ++ lits "agreement", lits "tenancy"],
    weight := 1 }

/-- The Service Agreement signature. -/
def serviceSig : Signature :=
  { name := "Service Agreement",
    keywords := ["services", "service provider", "client", "deliverables",
                 "scope of work", "professional services", "consulting",
                 "independent contractor", "statement of work"],
    patterns := [lits "service" ++ wsp ++ lits "agreement",
                 lits "consulting" ++ wsp ++ lits "agreement",
                 lits "professional" ++ wsp ++ lits "services",
                 lits "statement" ++ wsp ++ lits "of" ++ wsp ++ lits "work",
                 lits "SOW"],
    weight := 1 }

/-- The Purchase Agreement signature. -/
def purchaseSig : Signature :=
  { name := "Purchase Agreement",
    keywords := ["purchase", "buyer", "seller", "goods", "merchandise",
                 "delivery", "shipping", "purchase price", "payment terms"],
    patterns := [lits "purchase" ++ wsp ++ lits "agreement",
                 lits "sales" ++ wsp ++ lits "agreement",
                 lits "purchase" ++ wsp ++ lits "order",
                 lits "bill" ++ wsp ++ lits "of" ++ wsp ++ lits "sale"],
    weight := 1 }

/-- The Partnership Agreement signature. -/
def partnershipSig : Signature :=
  { name := "Partnership Agreement",
    keywords := ["partner", "partnership", "capital contribution", "profit sharing",
                 "loss sharing", "management", "dissolution", "partnership interest"],
    patterns := [lits "partnership" ++ wsp ++ lits "agreement",
                 lits "joint" ++ wsp ++ lits "venture"],
    weight := 1 }

/-- The License Agreement signature. -/
def licenseSig : Signature :=
  { name := "License Agreement",
    keywords := ["license", "licensor", "licensee", "intellectual property",
                 "usage rights", "royalty", "sublicense", "license fee"],
    patterns := [lits "license" ++ wsp ++ lits "agreement",
                 lits "licensing" ++ wsp ++ lits "agreement",
                 lits "software" ++ wsp ++ lits "license"],
    weight := 1 }

/-- The Loan Agreement signature. -/
def loanSig : Signature :=
  { name := "Loan Agreement",
    keywords := ["loan", "lender", "borrower", "principal", "interest rate",
                 "repayment", "default", "collateral", "promissory note"],
    patterns := [lits "loan" ++ wsp ++ lits "agreement",
                 lits "promissory" ++ wsp ++ lits "note",
                 lits "credit" ++ wsp ++ lits "agreement"],
    weight := 1 }

/-- The Settlement Agreement signature. -/
def settlementSig : Signature :=
  { name := "Settlement Agreement",
    keywords := ["settlement", "dispute", "claim", "release", "parties agree",
                 "consideration", "waiver", "mutual release"],
    patterns := [lits "settlement" ++ wsp ++ lits "agreement",
                 lits "release" ++ wsp ++ lits "agreement", lits "compromise"],
    weight := 1 }

/-- The Franchise Agreement signature. -/
def franchiseSig : Signature :=
  { name := "Franchise Agreement",
    keywords := ["franchise", "franchisor", "franchisee", "territory",
                 "operating system", "franchise fee", "royalty"],
    patterns := [lits "franchise" ++ wsp ++ lits "agreement", lits "franchising"],
    weight := 1 }

/-- The signature catalog (`DocumentClassifier.document_signatures`), in
source (insertion) order. -/
def document_signatures : List Signature :=
  [ndaSig, employmentSig, leaseSig, serviceSig, purchaseSig,
   partnershipSig, licenseSig, loanSig, settlementSig, franchiseSig]

/-- Per-signature score of `_rule_based_classification`: +1 for each keyword
occurring (case-insensitively) in the text, then +2 per pattern match count.
The source accumulates in floats whose values are always whole numbers; the
embedding uses `Nat`. -/
def ruleScoreOf (sig : Signature) (text : String) : Nat :=
  (sig.patterns.foldl
    (fun acc q => acc + scanCount q (pyLower text).toList * 2)
    (sig.keywords.foldl
      (fun acc kw => if hasSubStr (pyLower kw) (pyLower text) then acc + 1 else acc)
      0))

/-- Embedding of `_rule_based_classification`: the score mapping in catalog
(insertion) order. -/
def rule_based_classification (text : String) : List (String × Nat) :=
  document_signatures.map (fun sig => (sig.name, ruleScoreOf sig text))

/-- Stable insertion of one scored candidate into a descending list (an
element is placed before later elements with the same score, matching the
stability of Python's `sorted(..., reverse=True)`). -/
def insertDesc (x : String × Nat) : List (String × Nat) → List (String × Nat)
  | [] => [x]
  | y :: ys => if y.2 ≤ x.2 then x :: y :: ys else y :: insertDesc x ys

/-- Stable descending sort by score, as `sorted(..., key=score, reverse=True)`. -/
def sortDesc : List (String × Nat) → List (String × Nat)
  | [] => []
  | x :: xs => insertDesc x (sortDesc xs)

/-- Result of `_ai_classification`. -/
structure AIClassification where
  type : String
  confidence : ℚ
  reasoning : String
deriving DecidableEq, Repr

/-- Python `line.split(':', 1)[1].strip()`.  Every call site is guarded by a
substring test that guarantees the line contains a colon. -/
def afterColon (line : String) : String :=
  pyStrip (String.mk ((line.toList.dropWhile (fun c => !(c == ':'))).drop 1))

/-- The parsing loop of `_ai_classification`: fold over the response lines,
keeping the last `Document Type:` / `Confidence:` / `Reasoning:` match for
each field (an `if/elif` chain, so one line updates at most one field). -/
def parseAI (response : String) : Option String × String × String :=
  (response.splitOn "\n").foldl
    (fun st line =>
      if hasSubStr "document type:" (pyLower line) then
        (some (afterColon line), st.2.1, st.2.2)
      else if hasSubStr "confidence:" (pyLower line) then
        (st.1, afterColon line, st.2.2)
      else if hasSubStr "reasoning:" (pyLower line) then
        (st.1, st.2.1, afterColon line)
      else st)
    (none, "Medium", "")

/-- The `confidence_map.get(confidence.lower(), 70)` step. -/
def confidenceScore (conf : String) : ℚ :=
  if pyLower conf = "high" then 90
  else if pyLower conf = "medium" then 70
  else if pyLower conf = "low" then 50
  else 70

/-- Catalog keys, in order. -/
def signatureNames : List String := document_signatures.map Signature.name

/-- The doc-type validation step of `_ai_classification`: a parsed type that
is missing, empty or not a catalog key falls back to the first catalog key
containing it as a (lowercased) substring, else to the first candidate, else
to the literal `Unknown`. -/
def validateDocType (parsed : Option String) (candidates : List String) : String :=
  let dt := parsed.getD ""
  if dt = "" ∨ ¬ (signatureNames.contains dt) then
    match signatureNames.find? (fun k => hasSubStr (pyLower k) (pyLower dt)) with
    | some k => k
    | none => candidates.headD "Unknown"
  else dt

/-- Embedding of `_ai_classification`.  The prompt construction (including
the 2000-character truncation of the document text) only feeds the black-box
text-completion service and does not affect the returned record, which
depends on the service outcome `svc` and the candidate list alone. -/
def ai_classification (svc : Except String String) (candidates : List String) :
    AIClassification :=
  match svc with
  | .error e =>
    { type := candidates.headD "Unknown", confidence := 50,
      reasoning := "Error in AI classification: " ++ e }
  | .ok response =>
    let st := parseAI response
    { type := validateDocType st.1 candidates,
      confidence := confidenceScore st.2.1,
      reasoning := st.2.2 }

/-- Result of `classify_document`. -/
structure ClassificationResult where
  document_type : String
  confidence : ℚ
  method : String
  rule_based_scores : List (String × Nat)
  reasoning : String
deriving DecidableEq, Repr

/-- Embedding of `DocumentClassifier.classify_document`.  `svc` is the
outcome of the `granite.generate` call made on the AI path (unused on the
rule-based path). -/
def classify_document (svc : Except String String) (text : String)
    (use_ai : Bool) : ClassificationResult :=
  let top_candidates := (sortDesc (rule_based_classification text)).take 3
  let top := top_candidates.headD ("", 0)
  if use_ai ∧ top.2 < 5 then
    let ai := ai_classification svc (top_candidates.map Prod.fst)
    { document_type := ai.type, confidence := ai.confidence,
      method := "AI-enhanced", rule_based_scores := top_candidates,
      reasoning := ai.reasoning }
  else
    { document_type := top.1,
      confidence := round2 (min ((top.2 : ℚ) / 10 * 100) 100),
      method := "Rule-based", rule_based_scores := top_candidates,
      reasoning := "Identified based on keyword and pattern matching" }

/-! ### Claim C2 -/

theorem confidenceScore_bounds (conf : String) :
    0 ≤ confidenceScore conf ∧ confidenceScore conf ≤ 100 := by
  unfold confidenceScore
  split_ifs <;> norm_num

theorem ai_confidence_bounds (svc : Except String String)
    (candidates : List String) :
    0 ≤ (ai_classification svc candidates).confidence
    ∧ (ai_classification svc candidates).confidence ≤ 100 := by
  cases svc with
  | error e => constructor <;> norm_num [ai_classification]
  | ok response =>
    simp only [ai_classification]
    exact confidenceScore_bounds _

theorem round2_natCast (n : ℕ) : round2 ((n : ℚ)) = (n : ℚ) := by
  unfold round2
  have h : ((n : ℚ) * 100) = (((n * 100 : ℕ) : ℤ) : ℚ) := by push_cast; ring
  rw [h, round_intCast]
  push_cast
  field_simp

theorem rule_confidence_eq (s : ℕ) :
    round2 (min ((s : ℚ) / 10 * 100) 100) = ((min (10 * s) 100 : ℕ) : ℚ) := by
  have e1 : (s : ℚ) / 10 * 100 = ((10 * s : ℕ) : ℚ) := by push_cast; ring
  have e2 : (100 : ℚ) = ((100 : ℕ) : ℚ) := by norm_num
  have e3 : min ((s : ℚ) / 10 * 100) 100 = ((min (10 * s) 100 : ℕ) : ℚ) := by
    rw [Nat.cast_min, ← e1, ← e2]
  rw [e3, round2_natCast]

/-- C2: for every input text, both with and without the AI path, and for
every possible service outcome (any returned string, or a raised exception),
the `confidence` of `classify_document` lies in [0, 100]. -/
theorem c2_confidence_bounds (svc : Except String String) (text : String)
    (use_ai : Bool) :
    0 ≤ (classify_document svc text use_ai).confidence
    ∧ (classify_document svc text use_ai).confidence ≤ 100 := by
  simp only [classify_document]
  split
  · exact ai_confidence_bounds svc _
  · simp only []
    rw [rule_confidence_eq]
    constructor
    · exact Nat.cast_nonneg _
    · have h := min_le_right (10 * (((sortDesc (rule_based_classification text)).take 3).headD ("", 0)).2) 100
      calc ((min (10 * (((sortDesc (rule_based_classification text)).take 3).headD ("", 0)).2) 100 : ℕ) : ℚ)
          ≤ ((100 : ℕ) : ℚ) := by exact_mod_cast h
        _ = 100 := by norm_num

/-! ### Claim C3 -/

/-- C3 counterexample: on the empty text every rule-based score is zero, yet
`classify_document("", use_ai=False)` returns the first catalog entry
`Non-Disclosure Agreement (NDA)` (with confidence 0), not the conservative
default `Unknown` the claim states. -/
theorem c3_counterexample :
    (∀ e ∈ rule_based_classification "", e.2 = 0)
    ∧ (classify_document (Except.error "") "" false).document_type ≠ "Unknown" := by
  constructor
  · decide
  · decide

/-- C3 (amended): pattern-miss conditions are never an error — for every text
on which all rule-based scores are zero, `classify_document(text, use_ai
=False)` returns (the embedding is total, so no exception is raised), and its
`document_type` is the top rule-based candidate, which by stable descending
sort over the catalog order is the first catalog entry `Non-Disclosure
Agreement (NDA)`, with confidence 0 and method `Rule-based` — not the
conservative default `Unknown`. -/
theorem c3_pattern_miss_default (svc : Except String String) (text : String)
    (h : ∀ sig ∈ document_signatures, ruleScoreOf sig text = 0) :
    (classify_document svc text false).document_type
        = "Non-Disclosure Agreement (NDA)"
    ∧ (classify_document svc text false).confidence = 0
    ∧ (classify_document svc text false).method = "Rule-based" := by
  have hmap : rule_based_classification text
      = [("Non-Disclosure Agreement (NDA)", 0), ("Employment Contract", 0),
         ("Lease Agreement", 0), ("Service Agreement", 0),
         ("Purchase Agreement", 0), ("Partnership Agreement", 0),
         ("License Agreement", 0), ("Loan Agreement", 0),
         ("Settlement Agreement", 0), ("Franchise Agreement", 0)] := by
    have h1 : rule_based_classification text
        = document_signatures.map (fun sig => (sig.name, 0)) :=
      List.map_congr_left (fun sig hs => by rw [h sig hs])
    rw [h1]
    rfl
  refine ⟨?_, ?_, ?_⟩ <;> simp only [classify_document, hmap]
  · rfl
  · show round2 (min (((0 : ℕ) : ℚ) / 10 * 100) 100) = 0
    rw [rule_confidence_eq 0]
    norm_num
  · rfl

theorem c3_witness :
    (classify_document (Except.error "") "" false).document_type
        = "Non-Disclosure Agreement (NDA)"
    ∧ (classify_document (Except.error "") "" false).confidence = 0 :=
  ⟨(c3_pattern_miss_default (Except.error "") "" (by decide)).1,
   (c3_pattern_miss_default (Except.error "") "" (by decide)).2.1⟩

/-! ### Claim C7 -/

theorem startsList_append :
    ∀ {n h : List Char}, startsList n h = true → ∀ (s : List Char),
      startsList n (h ++ s) = true
  | [], _, _, _ => rfl
  | _ :: _, [], hs, _ => by cases hs
  | a :: as, b :: bs, hs, s => by
    simp only [startsList, Bool.and_eq_true] at hs
    simp only [List.cons_append, startsList, Bool.and_eq_true]
    exact ⟨hs.1, startsList_append hs.2 s⟩

theorem hasSub_nil_left : ∀ (s : List Char), hasSub [] s = true
  | [] => rfl
  | _ :: rest => by simp [hasSub, startsList]

theorem hasSub_append :
    ∀ {h : List Char} {n : List Char}, hasSub n h = true → ∀ (s : List Char),
      hasSub n (h ++ s) = true
  | [], n, hs, s => by
    have : n = [] := by
      cases n with
      | nil => rfl
      | cons c cs => simp [hasSub] at hs
    subst this
    exact hasSub_nil_left s
  | c :: rest, n, hs, s => by
    simp only [hasSub, Bool.or_eq_true] at hs
    simp only [List.cons_append, hasSub, Bool.or_eq_true]
    rcases hs with hs | hs
    · exact Or.inl (by
        have := startsList_append hs s
        simpa [List.cons_append] using this)
    · exact Or.inr (hasSub_append hs s)

theorem hasSubStr_append {needle hay : String} (h : hasSubStr needle hay = true)
    (s : String) : hasSubStr needle (hay ++ s) = true := by
  unfold hasSubStr at h ⊢
  rw [String.toList_append']
  exact hasSub_append h _

theorem length_filter_mono {α} (p q : α → Bool) :
    ∀ (l : List α), (∀ a ∈ l, p a = true → q a = true) →
      (l.filter p).length ≤ (l.filter q).length
  | [], _ => Nat.le_refl _
  | a :: l, h => by
    have ih := length_filter_mono p q l (fun b hb => h b (List.mem_cons_of_mem a hb))
    by_cases hp : p a
    · have hq := h a (List.mem_cons_self a l) hp
      simp only [List.filter_cons, hp, hq, if_true, List.length_cons]
      omega
    · simp only [List.filter_cons]
      simp only [hp, Bool.false_eq_true, if_false]
      by_cases hq : q a
      · simp only [hq, if_true, List.length_cons]
        omega
      · simp only [hq, Bool.false_eq_true, if_false]
        exact ih

theorem foldl_count {α} (p : α → Bool) :
    ∀ (l : List α) (n : Nat),
      l.foldl (fun acc a => if p a then acc + 1 else acc) n
        = n + (l.filter p).length
  | [], n => by simp
  | a :: l, n => by
    simp only [List.foldl_cons]
    by_cases hp : p a
    · rw [if_pos hp, foldl_count p l (n + 1)]
      simp only [List.filter_cons, hp, if_true, List.length_cons]
      omega
    · rw [if_neg hp, foldl_count p l n]
      simp only [List.filter_cons, hp, Bool.false_eq_true, if_false]

theorem foldl_addmap {α} (f : α → Nat) :
    ∀ (l : List α) (n : Nat),
      l.foldl (fun acc a => acc + f a) n = n + (l.map f).sum
  | [], n => by simp
  | a :: l, n => by
    simp only [List.foldl_cons, List.map_cons, List.sum_cons, foldl_addmap f l (n + f a)]
    omega

/-- Additivity of the rule-based score, in the claim's form. -/
theorem ruleScoreOf_additive (sig : Signature) (text : String) :
    ruleScoreOf sig text
      = (sig.keywords.filter
          (fun kw => hasSubStr (pyLower kw) (pyLower text))).length
        + (sig.patterns.map (fun q => scanCount q (pyLower text).toList)).sum * 2 := by
  unfold ruleScoreOf
  rw [foldl_count, foldl_addmap]
  rw [← List.sum_map_mul_right]
  simp

/-- Every pattern of the classifier catalog is well formed. -/
theorem catalog_patterns_wf :
    ∀ sig ∈ document_signatures, ∀ pat ∈ sig.patterns, wfPat pat = true := by
  decide

/-- Monotonicity of the rule-based score under appending any suffix. -/
theorem ruleScoreOf_mono (sig : Signature) (hs : sig ∈ document_signatures)
    (text suffix : String) :
    ruleScoreOf sig text ≤ ruleScoreOf sig (text ++ suffix) := by
  rw [ruleScoreOf_additive, ruleScoreOf_additive, pyLower_append]
  have hkw : (sig.keywords.filter
        (fun kw => hasSubStr (pyLower kw) (pyLower text))).length
      ≤ (sig.keywords.filter
        (fun kw => hasSubStr (pyLower kw) (pyLower text ++ pyLower suffix))).length :=
    length_filter_mono _ _ sig.keywords
      (fun kw _ hkw => hasSubStr_append hkw (pyLower suffix))
  have hpat : (sig.patterns.map
        (fun q => scanCount q (pyLower text).toList)).sum
      ≤ (sig.patterns.map
        (fun q => scanCount q (pyLower text ++ pyLower suffix).toList)).sum := by
    apply List.sum_le_sum
    intro q hq
    rw [String.toList_append']
    exact scanCount_mono (catalog_patterns_wf sig hs q hq) _ _
  omega

/-- C7: the rule-based score of a document type is additive — +1 per keyword
occurring as a case-insensitive substring, +2 per regex-pattern match with
repeated hits accumulating — and consequently appending an occurrence of any
of the type's scored patterns to the text never decreases that type's
score. -/
theorem c7_rule_score_additive_monotone (sig : Signature)
    (hs : sig ∈ document_signatures) (text occ : String) (pat : List Atom)
    (_hpat : pat ∈ sig.patterns)
    (_hocc : matchAtoms pat (pyLower occ).toList = some []) :
    (ruleScoreOf sig text
      = (sig.keywords.filter
          (fun kw => hasSubStr (pyLower kw) (pyLower text))).length
        + (sig.patterns.map (fun q => scanCount q (pyLower text).toList)).sum * 2)
    ∧ ruleScoreOf sig text ≤ ruleScoreOf sig (text ++ occ) :=
  ⟨ruleScoreOf_additive sig text, ruleScoreOf_mono sig hs text occ⟩

theorem c7_witness :
    ruleScoreOf ndaSig "some text"
      ≤ ruleScoreOf ndaSig ("some text" ++ "non-disclosure") :=
  (c7_rule_score_additive_monotone ndaSig (List.mem_cons_self _ _)
    "some text" "non-disclosure" (lits "non" ++ [Atom.dashWs] ++ lits "disclosure")
    (by decide) (by decide)).2

/-! ## NER extractor (`src/utils/ner_extractor.py`) -/

/-- Legal-term vocabulary (`LegalNERExtractor.legal_terms`). -/
def legal_terms : List String :=
  ["agreement", "contract", "covenant", "warranty", "indemnification",
   "liability", "breach", "termination", "arbitration", "jurisdiction",
   "confidentiality", "non-disclosure", "intellectual property",
   "consideration", "force majeure", "governing law", "amendment",
   "severability", "waiver", "notice", "assignment", "subcontract"]

/-- Obligation keywords (`LegalNERExtractor.obligation_keywords`). -/
def obligation_keywords : List String :=
  ["shall", "must", "will", "agrees to", "obligated to", "required to",
   "responsible for", "undertakes to", "covenant to", "bound to"]

/-- One entity record, a tagged version of the loosely-keyed Python dicts
built per category. -/
inductive EntityRec where
  | party (name : String) (aliasName : Option String) (role : String) (context : String)
  | date (date : String) (format : String) (context : String)
  | money (amount : String) (value : String) (currency : String) (context : String)
  | obligation (clause : String) (keyword : String) (type : String)
  | legalTerm (term : String) (count : Nat) (context : String)
  | contact (type : String) (value : String) (context : String)
deriving DecidableEq, Repr

/-- One `re.finditer` match for the oracle-modelled NER patterns: the whole
match `group(0)`, up to two capture groups, and the match span. -/
structure ReMatch where
  g0 : String
  g1 : String := ""
  g2 : String := ""
  mstart : Nat := 0
  mend : Nat := 0
deriving DecidableEq, Repr

/-- Oracle bundling the `re.finditer` match lists of the NER patterns whose
regexes are modelled as black boxes (parties, dates, monetary values, contact
info); each field is the match list of one source pattern on the given
text. -/
structure NerOracle where
  betweenMatches : String → List ReMatch
  referredMatches : String → List ReMatch
  orgMatches : String → List ReMatch
  dateMonthMatches : String → List ReMatch
  dateSlashMatches : String → List ReMatch
  dateIsoMatches : String → List ReMatch
  moneyDollarMatches : String → List ReMatch
  moneyWordMatches : String → List ReMatch
  moneyCurMatches : String → List ReMatch
  emailMatches : String → List ReMatch
  phoneMatches : String → List ReMatch

/-- Embedding of `LegalNERExtractor._get_context`: a 50-character window on
each side of the span, stripped, with ellipsis markers at truncated ends. -/
def get_context (text : String) (start stop : Nat) : String :=
  let cstart := start - 50
  let cend := min text.length (stop + 50)
  let ctx := pyStrip (pySliceRange text cstart cend)
  let ctx := if 0 < cstart then "..." ++ ctx else ctx
  if cend < text.length then ctx ++ "..." else ctx

/-- Name of a party record (used by the pattern-3 deduplication test). -/
def partyName : EntityRec → String
  | .party n _ _ _ => n
  | _ => ""

/-- Embedding of `_extract_parties`: the two records per `between A and B`
match (kept when both names are under 50 characters), one aliased record per
`hereinafter referred to as` match (name under 100 characters), and one
record per organization-suffix match whose name is not already present;
capped at 10. -/
def extract_parties (o : NerOracle) (text : String) : List EntityRec :=
  let p1 := (o.betweenMatches text).foldl
    (fun acc m =>
      let party1 := pyStrip m.g1
      let party2 := pyStrip m.g2
      if party1.length < 50 ∧ party2.length < 50 then
        acc ++ [EntityRec.party party1 none "Party 1" m.g0,
                EntityRec.party party2 none "Party 2" m.g0]
      else acc) []
  let p2 := (o.referredMatches text).foldl
    (fun acc m =>
      let fullName := pyStrip m.g1
      let shortName := pyStrip m.g2
      if fullName.length < 100 then
        acc ++ [EntityRec.party fullName (some shortName) "Party" m.g0]
      else acc) p1
  let p3 := (o.orgMatches text).foldl
    (fun acc m =>
      let orgName := pyStrip m.g1
      if orgName.length < 100 ∧ ¬ ((acc.map partyName).contains orgName) then
        acc ++ [EntityRec.party orgName none "Organization" m.g0]
      else acc) p2
  p3.take 10

/-- Embedding of `_extract_dates`: the three date formats pooled in order,
capped at 20. -/
def extract_dates (o : NerOracle) (text : String) : List EntityRec :=
  ((o.dateMonthMatches text).map (fun m =>
      EntityRec.date m.g0 "Month DD, YYYY" (get_context text m.mstart m.mend))
    ++ (o.dateSlashMatches text).map (fun m =>
      EntityRec.date m.g0 "DD/MM/YYYY or MM/DD/YYYY" (get_context text m.mstart m.mend))
    ++ (o.dateIsoMatches text).map (fun m =>
      EntityRec.date m.g0 "YYYY-MM-DD" (get_context text m.mstart m.mend))).take 20

/-- Python `str.replace(',', '')`. -/
def removeCommas (s : String) : String :=
  String.mk (s.toList.filter (fun c => !(c == ',')))

/-- Embedding of `_extract_monetary_values`: dollar amounts, `NNN dollars`
amounts and other-currency amounts pooled in order, capped at 15. -/
def extract_monetary_values (o : NerOracle) (text : String) : List EntityRec :=
  ((o.moneyDollarMatches text).map (fun m =>
      EntityRec.money m.g0 (removeCommas m.g1) "USD" (get_context text m.mstart m.mend))
    ++ (o.moneyWordMatches text).map (fun m =>
      EntityRec.money m.g0 (removeCommas m.g1) "USD" (get_context text m.mstart m.mend))
    ++ (o.moneyCurMatches text).map (fun m =>
      EntityRec.money m.g0 (removeCommas m.g1) m.g2 (get_context text m.mstart m.mend))).take 15

/-- Scanner for `re.split(r'[.;]\s+', text)` used by `_extract_obligations`:
a split happens at a period or semicolon followed by at least one whitespace
character, the separator consuming the whole whitespace run. -/
def obligSplitAux : Nat → List Char → List Char → List (List Char)
  | _, acc, [] => [acc.reverse]
  | 0, acc, _ :: _ => [acc.reverse]
  | fuel + 1, acc, c :: rest =>
    if (c == '.' || c == ';')
        && (match rest with | r :: _ => isWsChar r | [] => false) then
      obligSplitAux fuel [] (rest.dropWhile isWsChar)
    else obligSplitAux fuel (c :: acc) rest

/-- Embedding of `re.split(r'[.;]\s+', text)`. -/
def obligSplit (s : String) : List String :=
  (obligSplitAux s.toList.length [] s.toList).map String.mk

/-- Embedding of `_extract_obligations`: a sentence containing any obligation
keyword (first keyword in vocabulary order wins) is kept, stripped, as an
obligation record; capped at 20. -/
def extract_obligations (text : String) : List EntityRec :=
  ((obligSplit text).filterMap (fun sentence =>
    (obligation_keywords.find?
        (fun kw => hasSubStr (pyLower kw) (pyLower sentence))).map
      (fun kw => EntityRec.obligation (pyStrip sentence) kw "obligation"))).take 20

/-- Word characters for the regex `\b` boundary (ASCII `\w`). -/
def isWordChar (c : Char) : Bool := c.isAlphanum || c == '_'

/-- Positions of the non-overlapping whole-word occurrences of `term` in a
character list (the `re.finditer(r'\b' + re.escape(term) + r'\b', ...)` scan;
every term in the vocabulary begins and ends with a letter, so the
boundaries reduce to the neighbouring characters not being word
characters). -/
def wbScan (term : List Char) : Nat → Option Char → Nat → List Char → List Nat
  | _, _, _, [] => []
  | 0, _, _, _ :: _ => []
  | fuel + 1, prev, pos, c :: rest =>
    let boundaryBefore := match prev with
      | none => true
      | some d => !isWordChar d
    let after := (c :: rest).drop term.length
    let boundaryAfter := match after with
      | [] => true
      | d :: _ => !isWordChar d
    if startsList term (c :: rest) && boundaryBefore && boundaryAfter
        && !term.isEmpty then
      pos :: wbScan term fuel term.getLast?
        (pos + term.length) ((c :: rest).drop term.length)
    else wbScan term fuel (some c) (pos + 1) rest

/-- Whole-word match positions of a term in a string. -/
def wbMatches (term text : String) : List Nat :=
  wbScan term.toList text.toList.length none 0 text.toList

/-- Count key of a legal-term record, for the frequency sort. -/
def termCount : EntityRec → Nat
  | .legalTerm _ n _ => n
  | _ => 0

/-- Stable insertion by descending count (`list.sort(key=count, reverse
=True)` stability). -/
def insertTermDesc (x : EntityRec) : List EntityRec → List EntityRec
  | [] => [x]
  | y :: ys => if termCount y ≤ termCount x then x :: y :: ys
               else y :: insertTermDesc x ys

/-- Stable descending sort by count. -/
def sortTermsDesc : List EntityRec → List EntityRec
  | [] => []
  | x :: xs => insertTermDesc x (sortTermsDesc xs)

/-- Embedding of `_extract_legal_terms`: each vocabulary term present at
least once (whole-word, case-insensitive) yields a record with its total
occurrence count and the context of the first occurrence; records are sorted
by descending count and capped at 15. -/
def extract_legal_terms (text : String) : List EntityRec :=
  (sortTermsDesc (legal_terms.filterMap (fun term =>
    match wbMatches term (pyLower text) with
    | [] => none
    | p0 :: more =>
      some (EntityRec.legalTerm term (p0 :: more).length
        (get_context text p0 (p0 + term.length)))))).take 15

/-- Embedding of `_extract_contact_info`: pooled email and phone matches,
capped at 10. -/
def extract_contact_info (o : NerOracle) (text : String) : List EntityRec :=
  ((o.emailMatches text).map (fun m =>
      EntityRec.contact "email" m.g0 (get_context text m.mstart m.mend))
    ++ (o.phoneMatches text).map (fun m =>
      EntityRec.contact "phone" m.g0 (get_context text m.mstart m.mend))).take 10

/-- Embedding of `LegalNERExtractor.extract_entities`: the six category
passes, in the source's assignment (and hence dict insertion) order. -/
def extract_entities (o : NerOracle) (text : String) :
    List (String × List EntityRec) :=
  [("parties", extract_parties o text),
   ("dates", extract_dates o text),
   ("monetary_values", extract_monetary_values o text),
   ("obligations", extract_obligations text),
   ("legal_terms", extract_legal_terms text),
   ("contact_info", extract_contact_info o text)]

/-! ### Claim C9 -/

/-- C9: `extract_entities` returns a mapping with exactly the six categories
`parties, dates, monetary_values, obligations, legal_terms, contact_info`
(in that order), each bound to a possibly-empty list respecting its
per-category cap (10, 20, 15, 20, 15, 10 respectively) — for every text and
every possible set of regex matches. -/
theorem c9_extract_entities_shape (o : NerOracle) (text : String) :
    (extract_entities o text).map Prod.fst
        = ["parties", "dates", "monetary_values", "obligations",
           "legal_terms", "contact_info"]
    ∧ ((extract_entities o text).getD 0 ("", [])).2.length ≤ 10
    ∧ ((extract_entities o text).getD 1 ("", [])).2.length ≤ 20
    ∧ ((extract_entities o text).getD 2 ("", [])).2.length ≤ 15
    ∧ ((extract_entities o text).getD 3 ("", [])).2.length ≤ 20
    ∧ ((extract_entities o text).getD 4 ("", [])).2.length ≤ 15
    ∧ ((extract_entities o text).getD 5 ("", [])).2.length ≤ 10 := by
  refine ⟨rfl, ?_, ?_, ?_, ?_, ?_, ?_⟩
  · show (extract_parties o text).length ≤ 10
    exact List.length_take_le _ _
  · show (extract_dates o text).length ≤ 20
    exact List.length_take_le _ _
  · show (extract_monetary_values o text).length ≤ 15
    exact List.length_take_le _ _
  · show (extract_obligations text).length ≤ 20
    exact List.length_take_le _ _
  · show (extract_legal_terms text).length ≤ 15
    exact List.length_take_le _ _
  · show (extract_contact_info o text).length ≤ 10
    exact List.length_take_le _ _
